import Mathlib

/-!
Verification of the scraping/caching core of the `chat-bot` repository
(`apps/ai-service`): the price parser (`scrapers/utils.py`), the product
deduplicator, freshness filter and intelligent-search orchestration
(`services/smart_scraper_service.py`), the retry executor
(`scrapers/base_scraper_improved.py`), the search-result extractors
(`scrapers/amazon.py`, `scrapers/thomann.py`) and the database record shape
(`lib/database.py`).

Python floats are modelled as rationals (ℚ), Python `None`-able floats as
`Option ℚ`, and Python dicts with a fixed key set as Lean structures, with a
separate list of the literal dict keys where a claim is about key presence.
-/

/-! ### String helpers (model Python `str` operations, ASCII-faithful) -/

/-- Python `str.strip()`: drop whitespace from both ends. -/
def stripEnds (cs : List Char) : List Char :=
  ((cs.dropWhile Char.isWhitespace).reverse.dropWhile Char.isWhitespace).reverse

/-- Python `str.replace("EUR", "")`: delete every (non-overlapping,
left-to-right) occurrence of the three-character substring `EUR`. -/
def removeEUR : List Char → List Char
  | 'E' :: 'U' :: 'R' :: rest => removeEUR rest
  | c :: rest => c :: removeEUR rest
  | [] => []

/-- Numeric value of a digit string (most significant first). -/
def digitsVal (ds : List Char) : ℕ :=
  ds.foldl (fun a c => 10 * a + (c.toNat - 48)) 0

/-- Model of Python `float(s)` on the decimal fragment, as a signed integer
mantissa together with a power-of-ten denominator exponent: optional sign,
digits with at most one decimal point, at least one digit overall.
(Exponents, `inf`/`nan` and embedded underscores are rejected; none of them
can be produced by the cleaned price strings this program feeds to `float`.)
Returns `none` where Python raises `ValueError`. -/
def parseParts (cs : List Char) : Option (ℤ × ℕ) :=
  let sb : ℤ × List Char :=
    match cs with
    | '-' :: r => (-1, r)
    | '+' :: r => (1, r)
    | _ => (1, cs)
  let intPart := sb.2.takeWhile Char.isDigit
  let rest := sb.2.dropWhile Char.isDigit
  match rest with
  | [] => if intPart = [] then none else some (sb.1 * (digitsVal intPart : ℤ), 0)
  | '.' :: frac =>
    if frac.all Char.isDigit ∧ (intPart ≠ [] ∨ frac ≠ []) then
      some (sb.1 * ((digitsVal intPart : ℤ) * (10 : ℤ) ^ frac.length + (digitsVal frac : ℤ)),
        frac.length)
    else none
  | _ => none

/-- The rational number denoted by a mantissa/exponent pair. -/
def ratOfParts (me : ℤ × ℕ) : ℚ := (me.1 : ℚ) / (10 : ℚ) ^ me.2

/-- String cleanup and float-parse of `scrapers/utils.py::sanitize_price`
(lines 87–104), delivering the mantissa/exponent pair: strip the currency
symbol `€` and the word `EUR` and surrounding whitespace, normalize German
decimal formatting (both `.` and `,` present: `.` is a thousands separator;
a lone `,` is the decimal point), then parse. -/
def sanitizeParts (s : String) : Option (ℤ × ℕ) :=
  if s = "" then none
  else
    let clean := stripEnds (removeEUR (s.data.filter (fun c => c != '€')))
    let clean2 :=
      if clean.contains ',' ∧ clean.contains '.' then
        (clean.filter (fun c => c != '.')).map (fun c => if c = ',' then '.' else c)
      else if clean.contains ',' then
        clean.map (fun c => if c = ',' then '.' else c)
      else clean
    parseParts clean2

/-- `scrapers/utils.py::sanitize_price` (lines 72–104): `None` (here `none`)
when the string is empty or unparseable — never an exception (the Python
body catches `ValueError`). -/
def sanitize_price (s : String) : Option ℚ :=
  (sanitizeParts s).map ratOfParts

/-! ### Product records (Python dicts flowing through SmartScraperService) -/

/-- Model of an ISO-8601 `updatedAt` string, described relative to the moment
`datetime.utcnow()` is taken: whether `datetime.fromisoformat` accepts it
(after the code's `replace("Z", "+00:00")`), whether the parsed value is
timezone-aware (i.e. the string carried an offset or a `Z`), and how many
hours before "now" it lies. -/
structure TimeInfo where
  parses : Bool
  aware : Bool
  ageHours : ℚ
deriving DecidableEq

/-- A product dict as handled by `SmartScraperService`: `price` is `none` when
the dict has no top-level `"price"` key (the database path) and `some v` when
it does (the scraped path); `updatedAt` is `none` when absent.  `tag` stands
for the remaining dict fields (id, url, …), so that distinct dicts stay
distinguishable and Python dict equality is structure equality. -/
structure Product where
  name : String
  price : Option ℚ
  updatedAt : Option TimeInfo
  tag : ℕ
deriving DecidableEq

/-- `product.get("price", float("inf"))`: a missing price is +∞. -/
def pyPriceVal : Option ℚ → WithTop ℚ
  | none => ⊤
  | some v => (v : WithTop ℚ)

/-- Python `<` on the two `get("price", inf)` values (lines 217–220). -/
def priceLT (a b : Option ℚ) : Bool := decide (pyPriceVal a < pyPriceVal b)

/-- Normalized comparison key (line 210):
`product.get("name", "").lower().replace(" ", "").replace("-", "")`. -/
def normKey (s : String) : String :=
  ⟨(s.data.map Char.toLower).filter (fun c => !(c = ' ' || c = '-'))⟩

/-- Key of a product dict. -/
def prodKey (p : Product) : String := normKey p.name

/-! ### `SmartScraperService._deduplicate_products` (lines 200–226) -/

/-- One loop iteration of `_deduplicate_products`: `seen` is the Python dict
(modelled as a function), `unique` the output list.  An unseen key appends;
a seen key replaces the stored entry iff the new price is strictly lower
(`unique.remove(seen[key]); unique.append(product)`). -/
def dedupStep (st : (String → Option Product) × List Product) (p : Product) :
    (String → Option Product) × List Product :=
  let k := prodKey p
  match st.1 k with
  | none => (fun k' => if k' = k then some p else st.1 k', st.2 ++ [p])
  | some ex =>
    if priceLT p.price ex.price then
      (fun k' => if k' = k then some p else st.1 k', (st.2.erase ex) ++ [p])
    else st

/-- `SmartScraperService._deduplicate_products`. -/
def deduplicate_products (l : List Product) : List Product :=
  (l.foldl dedupStep (fun _ => none, [])).2

/-! ### `SmartScraperService._filter_fresh_products` (lines 109–126) -/

/-- Whether one product survives the freshness filter with TTL `ttl` hours:
the `updatedAt` value must be present (truthy), `fromisoformat` must accept
it, the comparison `updated_at > utcnow() - timedelta(hours=ttl)` must not
raise — it raises `TypeError` (swallowed by the bare `except`) whenever the
parsed datetime is timezone-aware, because `utcnow()` is naive — and the
timestamp must be strictly younger than `ttl` hours. -/
def freshOk (ttl : ℚ) (p : Product) : Bool :=
  match p.updatedAt with
  | none => false
  | some t => t.parses && !t.aware && decide (t.ageHours < ttl)

/-- `SmartScraperService._filter_fresh_products`. -/
def filter_fresh_products (ttl : ℚ) (l : List Product) : List Product :=
  l.filter (freshOk ttl)

/-! ### The loop invariant of `_deduplicate_products` -/

/-- Invariant tying the `seen` dict to the `unique` list inside the loop of
`_deduplicate_products`: the output carries pairwise distinct keys, membership
in the output is exactly being the currently stored entry for one's key, and
stored entries sit under their own key. -/
def DedupWF (seen : String → Option Product) (unique : List Product) : Prop :=
  (unique.map prodKey).Nodup ∧
  (∀ p : Product, p ∈ unique ↔ seen (prodKey p) = some p) ∧
  (∀ k p, seen k = some p → prodKey p = k)

/-! ### What the `seen` dict holds after the loop: the running winner -/

/-- The running best entry for one key, folded over the key's group exactly as
the loop updates `seen[key]`: a strictly cheaper newcomer replaces, anything
else is kept. -/
def runWinner : Option Product → List Product → Option Product
  | acc, [] => acc
  | none, q :: rest => runWinner (some q) rest
  | some a, q :: rest => runWinner (some (if priceLT q.price a.price then q else a)) rest

/-! ### Order preservation for products whose key occurs exactly once -/

/-- How many entries of `l` normalize to key `k`. -/
def keyCount (l : List Product) (k : String) : ℕ :=
  (l.filter (fun q => prodKey q == k)).length

/-! ### `BaseScraperImproved._retry_with_backoff`
    (`scrapers/base_scraper_improved.py`, lines 183–234) -/

/-- The retry loop body: `r` attempts remain (the current one included), `a`
is the 0-based index of the current attempt, `lastE` the last failure seen.
`outcome a` is what attempt `a` does (success value or raised error, timeout
included); `jitter a` models the `random.uniform(0, 1)` drawn after a failed
attempt `a`.  Returns the result together with the list of back-off sleeps
performed, in order; per the source, a sleep of
`retry_delay * 2 ** attempt + jitter` happens only when another attempt
remains (`attempt < max_retries - 1`). -/
def retry_go {α ε : Type} (rd : ℚ) (outcome : ℕ → Except ε α) (jitter : ℕ → ℚ) :
    ℕ → ℕ → Option ε → (Except (Option ε) α) × List ℚ
  | 0, _, lastE => (.error lastE, [])
  | r + 1, a, _ =>
    match outcome a with
    | .ok v => (.ok v, [])
    | .error e =>
      let rest := retry_go rd outcome jitter r (a + 1) (some e)
      (rest.1, (if 0 < r then [rd * 2 ^ a + jitter a] else []) ++ rest.2)

/-- `BaseScraperImproved._retry_with_backoff`: run up to `maxRetries`
attempts; a success returns immediately; once all attempts fail, raise
`ScraperError(f"Failed after {max_retries} attempts: {last_error}")` —
modelled as an error value carrying the attempt count and the last
failure. -/
def retry_with_backoff {α ε : Type} (maxRetries : ℕ) (retryDelay : ℚ)
    (outcome : ℕ → Except ε α) (jitter : ℕ → ℚ) : (Except (ℕ × Option ε) α) × List ℚ :=
  let r := retry_go retryDelay outcome jitter maxRetries 0 none
  (match r.1 with
   | .ok v => .ok v
   | .error le => .error (maxRetries, le), r.2)

/-! ### `ScrapedProduct` and the search-result extractors
    (`scrapers/amazon.py` lines 65–155, `scrapers/thomann.py` lines 56–142) -/

/-- `scrapers/base_scraper.py::ScrapedProduct`, restricted to the fields the
claims speak about.  `price` is `Option ℚ` because Thomann's extractor can
assign Python `None` to it. -/
structure ScrapedProductM where
  name : String
  price : Option ℚ
  currency : String
  availability : Bool
  url : String
  imageUrl : Option String
deriving DecidableEq

/-- Python truthiness of a float-or-None (`None` and `0.0` are falsy). -/
def pyTruthy : Option ℚ → Bool
  | none => false
  | some v => decide (v ≠ 0)

/-- `price or 0.0`: substitute `0.0` for a falsy price. -/
def pyOr0 : Option ℚ → ℚ
  | none => 0
  | some v => if v = 0 then 0 else v

/-- Does the string start with the character `/` (Python
`href.startswith('/')`)? -/
def headIsSlash (s : String) : Bool :=
  match s.data with
  | '/' :: _ => true
  | _ => false

/-- The product URL both extractors build from a card link:
`url = f"{base}{href}" if href and href.startswith('/') else href`, with the
final `url or ''` substituting the empty string when no link was found. -/
def py_url (base : String) (href : Option String) : String :=
  match href with
  | none => ""
  | some h => if h ≠ "" ∧ headIsSlash h then base ++ h else h

/-- One Amazon search-result card, as `_extract_search_result` queries it:
the title-loop outcome, the link href, the inner texts of the price elements
found (in selector order), the whole/fraction fallback pair when both
elements exist, and the image attribute. -/
structure AmazonCard where
  nameText : Option String
  href : Option String
  priceTexts : List String
  wholeFrac : Option (String × String)
  imageUrl : Option String
deriving DecidableEq

/-- `amazon.py` lines 92–107: each found price element's text is parsed and
overwrites the Python variable `price`; the loop breaks as soon as the parse
is truthy and strictly positive (`if price and price > 0: break`). -/
def amazon_price_scan : Option ℚ → List String → Option ℚ
  | cur, [] => cur
  | _, t :: ts =>
    match sanitize_price t with
    | some v => if 0 < v then some v else amazon_price_scan (some v) ts
    | none => amazon_price_scan none ts

/-- `amazon.py` lines 92–118: the selector scan, then — when the result is
falsy (`if not price:`) — the whole+fraction fallback
`sanitize_price(f"{whole}{fraction}")` when both elements exist. -/
def amazon_price_raw (c : AmazonCard) : Option ℚ :=
  let price0 := amazon_price_scan none c.priceTexts
  if pyTruthy price0 then price0
  else
    match c.wholeFrac with
    | some wf => sanitize_price (wf.1 ++ wf.2)
    | none => price0

/-- `amazon.py` line 132: `availability = price is not None and price > 0`. -/
def amazon_avail (c : AmazonCard) : Bool :=
  match amazon_price_raw c with
  | some v => decide (0 < v)
  | none => false

/-- `amazon.py::AmazonScraper._extract_search_result` (lines 65–155):
`None` when no title was found or the title text is empty (`if not name`),
otherwise the `ScrapedProduct` assembled from the card, with
`price=price or 0.0`, `url=url or ''`. -/
def amazon_extract (base : String) (c : AmazonCard) : Option ScrapedProductM :=
  match c.nameText with
  | none => none
  | some name =>
    if name = "" then none
    else
      some ⟨⟨stripEnds name.data⟩, some (pyOr0 (amazon_price_raw c)), "EUR",
        amazon_avail c, py_url base c.href, c.imageUrl⟩

/-- One Thomann search-result card: the first name-selector hit's text, the
link href, the first price-selector hit's text, the image attribute, and
whether any sold-out selector matched. -/
structure ThomannCard where
  nameText : Option String
  href : Option String
  priceText : Option String
  imageUrl : Option String
  soldOut : Bool
deriving DecidableEq

/-- `thomann.py` lines 97–98:
`price = sanitize_price(price_text) if price_text else 0.0` — an absent or
empty price text yields `0.0`, a non-empty one yields whatever
`sanitize_price` returns, `None` included. -/
def thomann_price (c : ThomannCard) : Option ℚ :=
  match c.priceText with
  | none => some 0
  | some t => if t = "" then some 0 else sanitize_price t

/-- `thomann.py::ThomannScraper._extract_search_result` (lines 56–142):
`None` when no name was found or it strips to empty
(`if not name or not name.strip()`); availability is true unless a sold-out
marker matched (independent of price and url); `url or ''` as for Amazon. -/
def thomann_extract (base : String) (c : ThomannCard) : Option ScrapedProductM :=
  match c.nameText with
  | none => none
  | some name =>
    if name = "" ∨ stripEnds name.data = [] then none
    else
      some ⟨⟨stripEnds name.data⟩, thomann_price c, "EUR", !c.soldOut,
        py_url base c.href, c.imageUrl⟩

/-! ### `SmartScraperService.intelligent_search`
    (`services/smart_scraper_service.py`, lines 32–107) and its collaborators -/

/-- A raw row behind one entry of `lib/database.py::search_products`' result
(lines 80–126): name and `updatedAt` drive the claims; the remaining columns
are folded into `tag`. -/
structure DBRow where
  name : String
  updatedAt : Option TimeInfo
  tag : ℕ
deriving DecidableEq

/-- The top-level dict keys `search_products` puts on each returned product
record (lines 82–124): the base keys always, the price-statistics keys only
when the product has prices.  A top-level `"price"` key is never among
them — the observations live under the `"prices"` array. -/
def db_record_keys (hasPrices : Bool) : List String :=
  ["id", "name", "brand", "category", "description", "imageUrl", "ean", "gtin",
   "createdAt", "updatedAt", "prices"] ++
  (if hasPrices then ["cheapest_price", "most_expensive", "price_range", "available_stores"]
   else [])

/-- The product dict built from a database row, as the freshness filter and
the merge step see it: no `"price"` key, hence `price := none`. -/
def db_row_to_record (r : DBRow) : Product :=
  ⟨r.name, none, r.updatedAt, r.tag⟩

/-- One product a store's scraper returned, with whether the save-and-convert
step of `_scrape_store` (lines 166–191) succeeds for it — a failing
`save_scraped_product` call or the `float(scraped.price)` conversion of a
`None` price raises inside the per-item `try` and the item is skipped. -/
structure ScrapedEntry where
  name : String
  price : Option ℚ
  saveOk : Bool
  tag : ℕ
deriving DecidableEq

/-- Environment of one `intelligent_search` call: what the database search
returns for the query at a given limit, and what each store's
`scraper.search` does (a raised exception, or a list of scraped items). -/
structure SearchEnv where
  dbRows : String → ℕ → List DBRow
  scrape : String → String → Except Unit (List ScrapedEntry)

/-- The scrapers-dict keys: `{"amazon": AmazonScraper, "thomann": ThomannScraper}`. -/
def scraperKeys : List String := ["amazon", "thomann"]

/-- `_scrape_store` (lines 152–198): any exception around the store's scrape
is caught and yields `[]`; otherwise every scraped item whose save and float
conversion succeed becomes a dict carrying a `"price"` key
(`float(scraped.price)`) and no `"updatedAt"`. -/
def scrape_store (env : SearchEnv) (query store : String) : List Product :=
  match env.scrape store query with
  | .error _ => []
  | .ok entries =>
    entries.foldl (fun acc e =>
      match e.price with
      | some v => if e.saveOk then acc ++ [⟨e.name, some v, none, e.tag⟩] else acc
      | none => acc) []

/-- `_scrape_all_stores` (lines 128–150): one task per requested store that is
a key of the scrapers dict, gathered in task order; `_scrape_store` never
raises, so every gathered result is a list and they are concatenated. -/
def scrape_all_stores (env : SearchEnv) (query : String) (stores : List String) : List Product :=
  ((stores.filter (fun s => scraperKeys.contains s)).map (scrape_store env query)).flatten

/-- The comparison of the final ordering (lines 102–104): the sort key is
`x.get("price", float("inf"))`. -/
def priceLE (a b : Product) : Prop := pyPriceVal a.price ≤ pyPriceVal b.price

instance : DecidableRel priceLE :=
  fun a b => inferInstanceAs (Decidable (pyPriceVal a.price ≤ pyPriceVal b.price))

instance : IsTotal Product priceLE :=
  ⟨fun a b => le_total (pyPriceVal a.price) (pyPriceVal b.price)⟩

instance : IsTrans Product priceLE := ⟨fun _ _ _ => le_trans⟩

/-- The final ordering (lines 102–104): Python's `sorted` is a stable
ascending sort by the key, and a stable sort's output is uniquely determined
by the key order and the original positions, so any stable sort models it;
we use insertion sort, which is stable. -/
def sort_by_price (l : List Product) : List Product :=
  l.insertionSort priceLE

/-- The scrape decision (lines 82–84): forced, or the fresh product count
strictly below `max_results_per_store * len(stores) / 2` under Python's true
division. -/
def needs_scraping (forceScrape : Bool) (freshCount maxPer nStores : ℕ) : Bool :=
  forceScrape || decide ((freshCount : ℚ) < (maxPer : ℚ) * (nStores : ℚ) / 2)

/-- The result dict of `intelligent_search`, one field per key of the literal
at lines 58–64 (`"sources"` being the nested `database`/`scraped` pair). -/
structure SearchResult where
  products : List Product
  sourcesDatabase : ℕ
  sourcesScraped : ℕ
  storesSearched : List String
  totalCount : ℕ
  scrapingTriggered : List String
deriving DecidableEq

/-- The top-level keys of the result dict (lines 58–64); the function updates
these keys but never adds another one — in particular nothing like
`"storesFailed"` exists. -/
def intelligent_search_result_keys : List String :=
  ["products", "sources", "stores_searched", "total_count", "scraping_triggered"]

/-- `SmartScraperService.intelligent_search` (lines 32–107): store defaulting
(`stores = stores or list(self.scrapers.keys())` — an *empty* store list is
falsy in Python and is replaced by the default exactly like `None`), database
lookup and freshness filtering unless forced, the scrape decision, the
parallel scrape, then merge, dedupe and price sort.  The function has no
raise path: `search_products` and `_scrape_store` catch their exceptions,
everything else is dict and list manipulation. -/
def intelligent_search (ttl : ℚ) (env : SearchEnv) (query : String) (stores : List String)
    (maxResultsPerStore : ℕ) (forceScrape : Bool) : SearchResult :=
  let stores := if stores = [] then scraperKeys else stores
  let fresh :=
    if forceScrape then []
    else filter_fresh_products ttl
      ((env.dbRows query (maxResultsPerStore * stores.length)).map db_row_to_record)
  let needs := needs_scraping forceScrape fresh.length maxResultsPerStore stores.length
  let scraped := if needs then scrape_all_stores env query stores else []
  let merged := sort_by_price (deduplicate_products (fresh ++ scraped))
  ⟨merged, fresh.length, scraped.length, stores, merged.length, if needs then stores else []⟩

/-- A concrete call environment: the database holds two products observed 1
and 2 hours ago (naive timestamps, so both fresh under a 24-hour TTL), and
both scrapers return nothing. -/
def c1env : SearchEnv :=
  ⟨fun _ _ => [⟨"g1", some ⟨true, false, 1⟩, 0⟩, ⟨"g2", some ⟨true, false, 2⟩, 1⟩],
   fun _ _ => .ok []⟩

/-- Environment in which both stores succeed: Amazon yields one product,
Thomann another. -/
def c4envOk : SearchEnv :=
  ⟨fun _ _ => [],
   fun s _ => if s = "amazon" then .ok [⟨"GuitarA", some (100 : ℚ), true, 0⟩]
              else .ok [⟨"GuitarB", some (90 : ℚ), true, 1⟩]⟩

/-- The same environment except that Thomann's scrape task fails entirely. -/
def c4envFail : SearchEnv :=
  ⟨fun _ _ => [], fun s q => if s = "thomann" then .error () else c4envOk.scrape s q⟩

/-- Environment for the empty-inputs run: the database knows nothing for the
empty query, both stores scrape one product each time. -/
def c9env : SearchEnv :=
  ⟨fun _ _ => [], fun _ _ => .ok [⟨"G", some (50 : ℚ), true, 0⟩]⟩

/-! ### Order facts about `priceLT` -/

theorem priceLT_iff {a b : Option ℚ} : priceLT a b = true ↔ pyPriceVal a < pyPriceVal b := by
  simp [priceLT]

theorem priceLT_false_iff {a b : Option ℚ} :
    priceLT a b = false ↔ ¬ pyPriceVal a < pyPriceVal b := by
  simp [priceLT]

theorem priceLT_trans {a b c : Option ℚ} (h1 : priceLT a b = true) (h2 : priceLT b c = true) :
    priceLT a c = true := by
  rw [priceLT_iff] at h1 h2 ⊢
  exact lt_trans h1 h2

theorem priceLT_of_lt_of_not_lt {a b c : Option ℚ} (h1 : priceLT a b = true)
    (h2 : priceLT c b = false) : priceLT a c = true := by
  rw [priceLT_iff] at h1 ⊢
  rw [priceLT_false_iff] at h2
  exact lt_of_lt_of_le h1 (not_lt.mp h2)

/-! ### Unfolding equations for one `_deduplicate_products` iteration -/

theorem dedupStep_new {st : (String → Option Product) × List Product} {p : Product}
    (hseen : st.1 (prodKey p) = none) :
    dedupStep st p = (fun k' => if k' = prodKey p then some p else st.1 k', st.2 ++ [p]) := by
  simp [dedupStep, hseen]

theorem dedupStep_replace {st : (String → Option Product) × List Product} {p ex : Product}
    (hseen : st.1 (prodKey p) = some ex) (hlt : priceLT p.price ex.price = true) :
    dedupStep st p =
      (fun k' => if k' = prodKey p then some p else st.1 k', (st.2.erase ex) ++ [p]) := by
  simp [dedupStep, hseen, hlt]

theorem dedupStep_keep {st : (String → Option Product) × List Product} {p ex : Product}
    (hseen : st.1 (prodKey p) = some ex) (hlt : priceLT p.price ex.price = false) :
    dedupStep st p = st := by
  simp [dedupStep, hseen, hlt]

theorem dedupWF_init : DedupWF (fun _ => none) [] := by
  refine ⟨List.nodup_nil, ?_, ?_⟩
  · intro p
    simp
  · intro k p h
    simp at h

theorem dedupWF_step {st : (String → Option Product) × List Product} (p : Product)
    (h : DedupWF st.1 st.2) : DedupWF (dedupStep st p).1 (dedupStep st p).2 := by
  obtain ⟨h1, h2, h3⟩ := h
  cases hseen : st.1 (prodKey p) with
  | none =>
    rw [dedupStep_new hseen]
    refine ⟨?_, ?_, ?_⟩
    · simp only [List.map_append, List.map_cons, List.map_nil, List.nodup_append]
      refine ⟨h1, List.nodup_singleton _, ?_⟩
      intro k hk hk'
      simp only [List.mem_singleton] at hk'
      subst hk'
      obtain ⟨q, hq, hqk⟩ := List.mem_map.mp hk
      have := (h2 q).mp hq
      rw [hqk, hseen] at this
      exact Option.noConfusion this
    · intro q
      by_cases hk : prodKey q = prodKey p
      · simp only [List.mem_append, List.mem_singleton, hk, if_pos rfl]
        constructor
        · rintro (hq | rfl)
          · have := (h2 q).mp hq
            rw [hk, hseen] at this
            exact Option.noConfusion this
          · rfl
        · intro hq
          right
          exact (Option.some_inj.mp hq).symm
      · simp only [List.mem_append, List.mem_singleton, if_neg hk]
        constructor
        · rintro (hq | rfl)
          · exact (h2 q).mp hq
          · exact absurd rfl hk
        · intro hq
          left
          exact (h2 q).mpr hq
    · intro k q hq
      simp only [] at hq
      by_cases hk : k = prodKey p
      · rw [if_pos hk] at hq
        rw [← Option.some_inj.mp hq, hk]
      · rw [if_neg hk] at hq
        exact h3 k q hq
  | some ex =>
    have hexk : prodKey ex = prodKey p := h3 _ _ hseen
    have hexu : ex ∈ st.2 := (h2 ex).mpr (by rw [hexk]; exact hseen)
    have hnd : st.2.Nodup := h1.of_map
    cases hlt : priceLT p.price ex.price with
    | false =>
      rw [dedupStep_keep hseen hlt]
      exact ⟨h1, h2, h3⟩
    | true =>
      rw [dedupStep_replace hseen hlt]
      refine ⟨?_, ?_, ?_⟩
      · simp only [List.map_append, List.map_cons, List.map_nil, List.nodup_append]
        refine ⟨((st.2.erase_sublist ex).map prodKey).nodup h1, List.nodup_singleton _, ?_⟩
        intro k hk hk'
        simp only [List.mem_singleton] at hk'
        subst hk'
        obtain ⟨q, hq, hqk⟩ := List.mem_map.mp hk
        have hqex : q ≠ ex := ((hnd.mem_erase_iff).mp hq).1
        have hqu : q ∈ st.2 := ((hnd.mem_erase_iff).mp hq).2
        have := (h2 q).mp hqu
        rw [hqk, hseen] at this
        exact hqex (Option.some_inj.mp this).symm
      · intro q
        by_cases hk : prodKey q = prodKey p
        · simp only [List.mem_append, List.mem_singleton, hk, if_pos rfl]
          constructor
          · rintro (hq | rfl)
            · have hqex : q ≠ ex := ((hnd.mem_erase_iff).mp hq).1
              have hqu : q ∈ st.2 := ((hnd.mem_erase_iff).mp hq).2
              have := (h2 q).mp hqu
              rw [hk, hseen] at this
              exact absurd (Option.some_inj.mp this).symm hqex
            · rfl
          · intro hq
            right
            exact (Option.some_inj.mp hq).symm
        · simp only [List.mem_append, List.mem_singleton, if_neg hk]
          constructor
          · rintro (hq | rfl)
            · exact (h2 q).mp ((hnd.mem_erase_iff).mp hq).2
            · exact absurd rfl hk
          · intro hq
            left
            rw [hnd.mem_erase_iff]
            refine ⟨?_, (h2 q).mpr hq⟩
            rintro rfl
            exact hk hexk
      · intro k q hq
        simp only [] at hq
        by_cases hk : k = prodKey p
        · rw [if_pos hk] at hq
          rw [← Option.some_inj.mp hq, hk]
        · rw [if_neg hk] at hq
          exact h3 k q hq

theorem dedupWF_foldl (l : List Product) (st : (String → Option Product) × List Product)
    (h : DedupWF st.1 st.2) : DedupWF (l.foldl dedupStep st).1 (l.foldl dedupStep st).2 := by
  induction l generalizing st with
  | nil => exact h
  | cons p rest ih => exact ih _ (dedupWF_step p h)

theorem runWinner_some (g : List Product) : ∀ a, ∃ w, runWinner (some a) g = some w := by
  induction g with
  | nil => exact fun a => ⟨a, rfl⟩
  | cons q rest ih => intro a; simpa [runWinner] using ih _

theorem runWinner_none_iff {acc : Option Product} {g : List Product} :
    runWinner acc g = none ↔ acc = none ∧ g = [] := by
  cases acc with
  | some a =>
    obtain ⟨w, hw⟩ := runWinner_some g a
    rw [hw]
    simp
  | none =>
    cases g with
    | nil => simp [runWinner]
    | cons q rest =>
      obtain ⟨w, hw⟩ := runWinner_some rest q
      rw [show runWinner none (q :: rest) = runWinner (some q) rest from rfl, hw]
      simp

theorem foldl_seen (l : List Product) (st : (String → Option Product) × List Product)
    (k : String) :
    (l.foldl dedupStep st).1 k = runWinner (st.1 k) (l.filter (fun q => prodKey q == k)) := by
  induction l generalizing st with
  | nil => simp [runWinner]
  | cons p rest ih =>
    rw [List.foldl_cons, ih]
    by_cases hk : prodKey p = k
    · have hfil : (p :: rest).filter (fun q => prodKey q == k)
          = p :: rest.filter (fun q => prodKey q == k) := by
        simp [List.filter_cons, hk]
      rw [hfil]
      cases hseen : st.1 (prodKey p) with
      | none =>
        rw [dedupStep_new hseen]
        simp only []
        rw [if_pos hk.symm, ← hk, hseen]
        rfl
      | some ex =>
        cases hlt : priceLT p.price ex.price with
        | true =>
          rw [dedupStep_replace hseen hlt]
          simp only []
          rw [if_pos hk.symm, ← hk, hseen]
          simp [runWinner, hlt]
        | false =>
          rw [dedupStep_keep hseen hlt]
          rw [← hk, hseen]
          simp [runWinner, hlt]
    · have hfil : (p :: rest).filter (fun q => prodKey q == k)
          = rest.filter (fun q => prodKey q == k) := by
        simp [List.filter_cons, hk]
      rw [hfil]
      have hstep : (dedupStep st p).1 k = st.1 k := by
        cases hseen : st.1 (prodKey p) with
        | none =>
          rw [dedupStep_new hseen]
          simp only []
          rw [if_neg (fun h => hk h.symm)]
        | some ex =>
          cases hlt : priceLT p.price ex.price with
          | true =>
            rw [dedupStep_replace hseen hlt]
            simp only []
            rw [if_neg (fun h => hk h.symm)]
          | false => rw [dedupStep_keep hseen hlt]
      rw [hstep]

/-- The running winner of a group is its first occurrence of the minimum
price: everything before it in the group is strictly more expensive,
nothing after it is strictly cheaper. -/
theorem runWinner_split (g : List Product) :
    ∀ a w, runWinner (some a) g = some w →
      ∃ pre post, a :: g = pre ++ w :: post ∧
        (∀ q ∈ pre, priceLT w.price q.price = true) ∧
        (∀ q ∈ post, priceLT q.price w.price = false) := by
  induction g with
  | nil =>
    intro a w hw
    simp only [runWinner, Option.some_inj] at hw
    subst hw
    exact ⟨[], [], by simp, by simp, by simp⟩
  | cons p rest ih =>
    intro a w hw
    rw [show runWinner (some a) (p :: rest)
        = runWinner (some (if priceLT p.price a.price then p else a)) rest from rfl] at hw
    cases hlt : priceLT p.price a.price with
    | true =>
      rw [if_pos hlt] at hw
      obtain ⟨pre', post', hsplit, hpre, hpost⟩ := ih p w hw
      cases pre' with
      | nil =>
        simp only [List.nil_append, List.cons.injEq] at hsplit
        obtain ⟨rfl, rfl⟩ := hsplit
        refine ⟨[a], rest, by simp, ?_, hpost⟩
        intro q hq
        simp only [List.mem_singleton] at hq
        subst hq
        exact hlt
      | cons x pre'' =>
        simp only [List.cons_append, List.cons.injEq] at hsplit
        obtain ⟨rfl, hrest⟩ := hsplit
        refine ⟨a :: p :: pre'', post', by simp [hrest], ?_, hpost⟩
        intro q hq
        simp only [List.mem_cons] at hq
        rcases hq with rfl | rfl | hq
        · have hwp : priceLT w.price p.price = true := hpre p (by simp)
          exact priceLT_trans hwp hlt
        · exact hpre q (by simp)
        · exact hpre q (by simp [hq])
    | false =>
      rw [if_neg (by simp [hlt])] at hw
      obtain ⟨pre', post', hsplit, hpre, hpost⟩ := ih a w hw
      cases pre' with
      | nil =>
        simp only [List.nil_append, List.cons.injEq] at hsplit
        obtain ⟨rfl, rfl⟩ := hsplit
        refine ⟨[], p :: rest, by simp, by simp, ?_⟩
        intro q hq
        simp only [List.mem_cons] at hq
        rcases hq with rfl | hq
        · exact hlt
        · exact hpost q hq
      | cons x pre'' =>
        simp only [List.cons_append, List.cons.injEq] at hsplit
        obtain ⟨rfl, hrest⟩ := hsplit
        refine ⟨a :: p :: pre'', post', by simp [hrest], ?_, hpost⟩
        intro q hq
        have hwa : priceLT w.price a.price = true := hpre a (by simp)
        simp only [List.mem_cons] at hq
        rcases hq with rfl | rfl | hq
        · exact hwa
        · exact priceLT_of_lt_of_not_lt hwa hlt
        · exact hpre q (by simp [hq])

/-! ### Membership characterization for `_deduplicate_products` -/

theorem mem_deduplicate_iff {l : List Product} {p : Product} :
    p ∈ deduplicate_products l ↔
      runWinner none (l.filter (fun q => prodKey q == prodKey p)) = some p := by
  obtain ⟨h1, h2, h3⟩ := dedupWF_foldl l (fun _ => none, []) dedupWF_init
  unfold deduplicate_products
  rw [h2 p, foldl_seen]

theorem dedup_keys_nodup (l : List Product) :
    ((deduplicate_products l).map prodKey).Nodup :=
  (dedupWF_foldl l (fun _ => none, []) dedupWF_init).1

theorem dedup_member_split {l : List Product} {p : Product}
    (hp : p ∈ deduplicate_products l) :
    ∃ pre post, l.filter (fun q => prodKey q == prodKey p) = pre ++ p :: post ∧
      (∀ q ∈ pre, priceLT p.price q.price = true) ∧
      (∀ q ∈ post, priceLT q.price p.price = false) := by
  rw [mem_deduplicate_iff] at hp
  cases hfil : l.filter (fun q => prodKey q == prodKey p) with
  | nil =>
    rw [hfil] at hp
    simp [runWinner] at hp
  | cons g0 gs =>
    rw [hfil] at hp
    rw [show runWinner none (g0 :: gs) = runWinner (some g0) gs from rfl] at hp
    obtain ⟨pre, post, hsp, hpre, hpost⟩ := runWinner_split gs g0 p hp
    exact ⟨pre, post, hsp, hpre, hpost⟩

theorem dedup_keys_iff (l : List Product) (k : String) :
    k ∈ l.map prodKey ↔ k ∈ (deduplicate_products l).map prodKey := by
  obtain ⟨h1, h2, h3⟩ := dedupWF_foldl l (fun _ => none, []) dedupWF_init
  constructor
  · intro hk
    obtain ⟨q, hq, rfl⟩ := List.mem_map.mp hk
    have hqfil : q ∈ l.filter (fun r => prodKey r == prodKey q) := by
      rw [List.mem_filter]
      exact ⟨hq, by simp⟩
    cases hfil : l.filter (fun r => prodKey r == prodKey q) with
    | nil => rw [hfil] at hqfil; exact absurd hqfil (List.not_mem_nil q)
    | cons g0 gs =>
      obtain ⟨w, hw⟩ := runWinner_some gs g0
      have hseen : (l.foldl dedupStep (fun _ => none, [])).1 (prodKey q) = some w := by
        rw [foldl_seen, hfil]
        exact hw
      have hwk : prodKey w = prodKey q := h3 _ _ hseen
      have hwmem : w ∈ deduplicate_products l := by
        unfold deduplicate_products
        rw [h2 w, hwk]
        exact hseen
      exact List.mem_map.mpr ⟨w, hwmem, hwk⟩
  · intro hk
    obtain ⟨p, hp, rfl⟩ := List.mem_map.mp hk
    have hseen : (l.foldl dedupStep (fun _ => none, [])).1 (prodKey p) = some p :=
      (h2 p).mp hp
    rw [foldl_seen] at hseen
    cases hfil : l.filter (fun r => prodKey r == prodKey p) with
    | nil =>
      rw [hfil] at hseen
      simp [runWinner] at hseen
    | cons g0 gs =>
      have hg0 : g0 ∈ l.filter (fun r => prodKey r == prodKey p) := by
        rw [hfil]; simp
      rw [List.mem_filter] at hg0
      exact List.mem_map.mpr ⟨g0, hg0.1, by simpa using hg0.2⟩

/-! ### Idempotence: a list with pairwise distinct keys passes unchanged -/

theorem foldl_dedup_unchanged (l : List Product) :
    ∀ st : (String → Option Product) × List Product,
      (l.map prodKey).Nodup → (∀ p ∈ l, st.1 (prodKey p) = none) →
      (l.foldl dedupStep st).2 = st.2 ++ l := by
  induction l with
  | nil => intro st _ _; simp
  | cons p rest ih =>
    intro st hnd hnone
    have hp : st.1 (prodKey p) = none := hnone p (by simp)
    rw [List.foldl_cons, dedupStep_new hp]
    rw [List.map_cons, List.nodup_cons] at hnd
    have hrest : ∀ q ∈ rest, ((fun k' => if k' = prodKey p then some p else st.1 k') : String → Option Product) (prodKey q) = none := by
      intro q hq
      have hne : prodKey q ≠ prodKey p := by
        intro he
        exact hnd.1 (he ▸ List.mem_map_of_mem prodKey hq)
      simp only [if_neg hne]
      exact hnone q (by simp [hq])
    have := ih (fun k' => if k' = prodKey p then some p else st.1 k', st.2 ++ [p]) hnd.2 hrest
    rw [this]
    simp

theorem keyCount_append (l1 l2 : List Product) (k : String) :
    keyCount (l1 ++ l2) k = keyCount l1 k + keyCount l2 k := by
  simp [keyCount, List.filter_append]

theorem keyCount_pos_of_mem {l : List Product} {q : Product} (hq : q ∈ l) {k : String}
    (hk : prodKey q = k) : 0 < keyCount l k := by
  have : q ∈ l.filter (fun r => prodKey r == k) := by
    rw [List.mem_filter]
    exact ⟨hq, by simp [hk]⟩
  exact List.length_pos.mpr (List.ne_nil_of_mem this)

theorem keyCount_cons_self (p : Product) (l : List Product) :
    keyCount (p :: l) (prodKey p) = keyCount l (prodKey p) + 1 := by
  simp [keyCount, List.filter_cons]

/-- Two occurrences of the same key — one at the head of the suffix, one in
its tail — force the whole list's count above 1. -/
theorem keyCount_ge_two {l0 pre rest : List Product} {p q : Product}
    (hsplit : l0 = pre ++ p :: rest) (hq : q ∈ rest) (hk : prodKey q = prodKey p) :
    2 ≤ keyCount l0 (prodKey p) := by
  subst hsplit
  rw [keyCount_append, keyCount_cons_self]
  have := keyCount_pos_of_mem hq hk
  omega

theorem filter_erase_of_neg {P : Product → Bool} {x : Product} (hx : P x = false)
    (l : List Product) : (l.erase x).filter P = l.filter P := by
  by_cases hmem : x ∈ l
  · obtain ⟨l1, l2, _, rfl, herase⟩ := List.exists_erase_eq hmem
    rw [herase, List.filter_append, List.filter_append, List.filter_cons, hx]
    simp
  · rw [List.erase_of_not_mem hmem]

/-- Running the loop over a suffix `s` of the full input `l0`: entries whose
key occurs exactly once in `l0` are appended in encounter order and never
erased, so they pass through the filter in order. -/
theorem foldl_filter_once (l0 : List Product) :
    ∀ (s pre : List Product) (st : (String → Option Product) × List Product),
      l0 = pre ++ s →
      DedupWF st.1 st.2 →
      (∀ p ∈ s, keyCount l0 (prodKey p) = 1 → st.1 (prodKey p) = none) →
      (∀ p, keyCount l0 (prodKey p) = 1 → p ∈ st.2 → ∀ q ∈ s, prodKey q ≠ prodKey p) →
      (s.foldl dedupStep st).2.filter (fun p => keyCount l0 (prodKey p) == 1)
        = st.2.filter (fun p => keyCount l0 (prodKey p) == 1)
          ++ s.filter (fun p => keyCount l0 (prodKey p) == 1) := by
  intro s
  induction s with
  | nil => intro pre st _ _ _ _; simp
  | cons p rest ih =>
    intro pre st hsplit hwf h1 h2
    have hsplit' : l0 = (pre ++ [p]) ++ rest := by simp [hsplit]
    have hps : p ∈ p :: rest := by simp
    -- a later entry with p's key bounds the count below by 2
    have htwo : ∀ q ∈ rest, prodKey q = prodKey p → keyCount l0 (prodKey p) ≠ 1 := by
      intro q hq hk hcount
      have := keyCount_ge_two hsplit hq hk
      omega
    obtain ⟨w1, w2, w3⟩ := hwf
    rw [List.foldl_cons]
    cases hseen : st.1 (prodKey p) with
    | none =>
      rw [dedupStep_new hseen]
      have hres := ih (pre ++ [p])
        (fun k' => if k' = prodKey p then some p else st.1 k', st.2 ++ [p]) hsplit'
        (by
          have := dedupWF_step p ⟨w1, w2, w3⟩
          rwa [dedupStep_new hseen] at this)
        (by
          intro q hq hcount
          have hne : prodKey q ≠ prodKey p := fun he => htwo q hq he (he ▸ hcount)
          simp only [if_neg hne]
          exact h1 q (by simp [hq]) hcount)
        (by
          intro p' hcount hp' q hq
          simp only [List.mem_append, List.mem_singleton] at hp'
          rcases hp' with hp' | rfl
          · exact h2 p' hcount hp' q (by simp [hq])
          · exact fun he => htwo q hq he (he ▸ hcount))
      rw [hres]
      simp only [List.filter_append, List.filter_cons]
      cases hP : keyCount l0 (prodKey p) == 1 <;> simp
    | some ex =>
      have hnotP : (keyCount l0 (prodKey p) == 1) = false := by
        rw [beq_eq_false_iff_ne]
        intro hcount
        rw [h1 p hps hcount] at hseen
        exact Option.noConfusion hseen
      have hexk : prodKey ex = prodKey p := w3 _ _ hseen
      have hexmem : ex ∈ st.2 := (w2 ex).mpr (by rw [hexk]; exact hseen)
      have hnotPex : (keyCount l0 (prodKey ex) == 1) = false := by
        rw [beq_eq_false_iff_ne]
        intro hcount
        exact h2 ex hcount hexmem p hps hexk.symm
      cases hlt : priceLT p.price ex.price with
      | true =>
        rw [dedupStep_replace hseen hlt]
        have hres := ih (pre ++ [p])
          (fun k' => if k' = prodKey p then some p else st.1 k', (st.2.erase ex) ++ [p])
          hsplit'
          (by
            have := dedupWF_step p ⟨w1, w2, w3⟩
            rwa [dedupStep_replace hseen hlt] at this)
          (by
            intro q hq hcount
            have hne : prodKey q ≠ prodKey p := fun he => htwo q hq he (he ▸ hcount)
            simp only [if_neg hne]
            exact h1 q (by simp [hq]) hcount)
          (by
            intro p' hcount hp' q hq
            simp only [List.mem_append, List.mem_singleton] at hp'
            rcases hp' with hp' | rfl
            · exact h2 p' hcount (List.mem_of_mem_erase hp') q (by simp [hq])
            · exact fun he => htwo q hq he (he ▸ hcount))
        rw [hres]
        rw [List.filter_append, filter_erase_of_neg hnotPex, List.filter_cons, hnotP,
          List.filter_cons, hnotP]
        simp
      | false =>
        rw [dedupStep_keep hseen hlt]
        have hres := ih (pre ++ [p]) st hsplit' ⟨w1, w2, w3⟩
          (by
            intro q hq hcount
            have hne : prodKey q ≠ prodKey p := fun he => htwo q hq he (he ▸ hcount)
            exact h1 q (by simp [hq]) hcount)
          (by
            intro p' hcount hp' q hq
            exact h2 p' hcount hp' q (by simp [hq]))
        rw [hres, List.filter_cons, hnotP]
        simp

/-- Entries whose key occurs exactly once pass through `_deduplicate_products`
unchanged and in their order of first appearance. -/
theorem dedup_filter_once (l : List Product) :
    (deduplicate_products l).filter (fun p => keyCount l (prodKey p) == 1)
      = l.filter (fun p => keyCount l (prodKey p) == 1) := by
  have := foldl_filter_once l l [] (fun _ => none, []) (by simp) dedupWF_init
    (by intro p _ _; rfl) (by intro p _ hp; exact absurd hp (List.not_mem_nil p))
  unfold deduplicate_products
  rw [this]
  simp

/-- C7: `_deduplicate_products` is idempotent (and, being modelled as a plain
function of its input list, pure and deterministic with no I/O): running it on
its own output returns that output unchanged, because the output carries
pairwise distinct normalized keys. -/
theorem C7_deduplicate_products_idempotent :
    ∀ l : List Product, deduplicate_products (deduplicate_products l) = deduplicate_products l := by
  intro l
  have hnd := dedup_keys_nodup l
  show ((deduplicate_products l).foldl dedupStep (fun _ => none, [])).2 = deduplicate_products l
  rw [foldl_dedup_unchanged (deduplicate_products l) (fun _ => none, []) hnd
    (fun p _ => rfl)]
  simp

/-- C3: `_deduplicate_products` groups by the lowercased, space- and
hyphen-stripped name; each input key survives in exactly one output entry —
the first occurrence of the group's minimum price (everything before it in the
group is strictly dearer, nothing after it strictly cheaper, so an exact tie
keeps the first seen); entries whose key occurs once pass through unchanged in
their order of first appearance; and on the concrete pair priced 299.99 and
289.99 with equal normalized names only the 289.99 entry is kept. -/
theorem C3_dedup_keeps_cheapest_first :
    (∀ l : List Product,
      ((deduplicate_products l).map prodKey).Nodup ∧
      (∀ k, k ∈ l.map prodKey ↔ k ∈ (deduplicate_products l).map prodKey) ∧
      (∀ p ∈ deduplicate_products l,
        ∃ pre post, l.filter (fun q => prodKey q == prodKey p) = pre ++ p :: post ∧
          (∀ q ∈ pre, priceLT p.price q.price = true) ∧
          (∀ q ∈ post, priceLT q.price p.price = false)) ∧
      (deduplicate_products l).filter (fun p => keyCount l (prodKey p) == 1)
        = l.filter (fun p => keyCount l (prodKey p) == 1)) ∧
    deduplicate_products
        [⟨"Fender Strat", some (299.99 : ℚ), none, 0⟩,
         ⟨"fender-strat", some (289.99 : ℚ), none, 1⟩]
      = [⟨"fender-strat", some (289.99 : ℚ), none, 1⟩] := by
  constructor
  · intro l
    refine ⟨dedup_keys_nodup l, dedup_keys_iff l, ?_, dedup_filter_once l⟩
    intro p hp
    exact dedup_member_split hp
  · have hk : prodKey (⟨"fender-strat", some (289.99 : ℚ), none, 1⟩ : Product)
        = prodKey (⟨"Fender Strat", some (299.99 : ℚ), none, 0⟩ : Product) := by
      decide
    have hlt : priceLT (some (289.99 : ℚ)) (some (299.99 : ℚ)) = true := by
      rw [priceLT_iff]
      simp only [pyPriceVal, WithTop.coe_lt_coe]
      norm_num
    simp only [deduplicate_products, List.foldl_cons, List.foldl_nil]
    rw [dedupStep_new (show ((fun _ => none, ([] : List Product)) :
          (String → Option Product) × List Product).1
        (prodKey (⟨"Fender Strat", some (299.99 : ℚ), none, 0⟩ : Product)) = none from rfl)]
    have hseen2 : ((fun k' =>
          if k' = prodKey (⟨"Fender Strat", some (299.99 : ℚ), none, 0⟩ : Product)
          then some (⟨"Fender Strat", some (299.99 : ℚ), none, 0⟩ : Product)
          else (fun _ => (none : Option Product)) k',
        ([] : List Product) ++ [(⟨"Fender Strat", some (299.99 : ℚ), none, 0⟩ : Product)]) :
          (String → Option Product) × List Product).1
        (prodKey (⟨"fender-strat", some (289.99 : ℚ), none, 1⟩ : Product))
        = some (⟨"Fender Strat", some (299.99 : ℚ), none, 0⟩ : Product) := by
      simp only []
      rw [if_pos hk]
    rw [dedupStep_replace hseen2 hlt]
    simp

theorem C3_dedup_keeps_cheapest_first_witness :
    ∃ pre post,
      ([⟨"x", some (3 : ℚ), none, 0⟩] : List Product).filter
          (fun q => prodKey q == prodKey (⟨"x", some (3 : ℚ), none, 0⟩ : Product))
        = pre ++ (⟨"x", some (3 : ℚ), none, 0⟩ : Product) :: post ∧
      (∀ q ∈ pre, priceLT (⟨"x", some (3 : ℚ), none, 0⟩ : Product).price q.price = true) ∧
      (∀ q ∈ post, priceLT q.price (⟨"x", some (3 : ℚ), none, 0⟩ : Product).price = false) :=
  ((C3_dedup_keeps_cheapest_first.1 [⟨"x", some (3 : ℚ), none, 0⟩]).2.2.1)
    ⟨"x", some (3 : ℚ), none, 0⟩ (by decide)

/-- C6: with a 24-hour TTL, `_filter_fresh_products` keeps a product whose
`updatedAt` parses to a naive datetime 23 hours old and drops one 25 hours
old — but it also drops a product 23 hours old whenever the timestamp is
timezone-aware (any `+HH:MM` offset, including the `+00:00` that the code
itself substitutes for `Z`), because comparing the aware value against the
naive `utcnow()` cutoff raises `TypeError`, which the bare `except` swallows
by skipping the product.  This contradicts the claim (and the code's own
`Z`-rewriting intent) that any 23-hour-old observation counts as fresh. -/
theorem C6_fresh_filter_behavior :
    filter_fresh_products 24 [⟨"p1", none, some ⟨true, false, 23⟩, 0⟩]
        = [⟨"p1", none, some ⟨true, false, 23⟩, 0⟩] ∧
    filter_fresh_products 24 [⟨"p2", none, some ⟨true, false, 25⟩, 1⟩] = [] ∧
    filter_fresh_products 24 [⟨"p3", none, some ⟨true, true, 23⟩, 2⟩] = [] := by
  decide

/-- C5: with `max_retries = 3` and `retry_delay = 2`, a success on any attempt
returns immediately with that result; after failed attempt k (k = 1, 2) the
executor sleeps `2 * 2^(k-1) + uniform(0,1)` seconds — in [2, 3) then [4, 5),
i.e. ≈2s then ≈4s — and the terminal error, wrapping the last failure and the
attempt count 3, appears only once the third attempt has failed. -/
theorem C5_retry_with_backoff_spec {α ε : Type} (outcome : ℕ → Except ε α) (jitter : ℕ → ℚ)
    (hj : ∀ n, 0 ≤ jitter n ∧ jitter n < 1) :
    (∀ v, outcome 0 = .ok v → retry_with_backoff 3 2 outcome jitter = (.ok v, [])) ∧
    (∀ e0 v, outcome 0 = .error e0 → outcome 1 = .ok v →
      retry_with_backoff 3 2 outcome jitter = (.ok v, [2 * 2 ^ 0 + jitter 0]) ∧
      2 ≤ 2 * 2 ^ 0 + jitter 0 ∧ 2 * 2 ^ 0 + jitter 0 < 3) ∧
    (∀ e0 e1 v, outcome 0 = .error e0 → outcome 1 = .error e1 → outcome 2 = .ok v →
      retry_with_backoff 3 2 outcome jitter
          = (.ok v, [2 * 2 ^ 0 + jitter 0, 2 * 2 ^ 1 + jitter 1]) ∧
      4 ≤ 2 * 2 ^ 1 + jitter 1 ∧ 2 * 2 ^ 1 + jitter 1 < 5) ∧
    (∀ e0 e1 e2, outcome 0 = .error e0 → outcome 1 = .error e1 → outcome 2 = .error e2 →
      retry_with_backoff 3 2 outcome jitter
          = (.error (3, some e2), [2 * 2 ^ 0 + jitter 0, 2 * 2 ^ 1 + jitter 1])) := by
  refine ⟨?_, ?_, ?_, ?_⟩
  · intro v h0
    simp [retry_with_backoff, retry_go, h0]
  · intro e0 v h0 h1
    obtain ⟨hj0, hj0'⟩ := hj 0
    refine ⟨by simp [retry_with_backoff, retry_go, h0, h1], by nlinarith, by nlinarith⟩
  · intro e0 e1 v h0 h1 h2
    obtain ⟨hj1, hj1'⟩ := hj 1
    refine ⟨by simp [retry_with_backoff, retry_go, h0, h1, h2], by nlinarith, by nlinarith⟩
  · intro e0 e1 e2 h0 h1 h2
    simp [retry_with_backoff, retry_go, h0, h1, h2]

theorem C5_retry_with_backoff_spec_witness :
    retry_with_backoff 3 2 (fun n => if n = 0 then .error "boom" else .ok 42)
        (fun _ => (1 : ℚ) / 2)
      = (.ok 42, [2 * 2 ^ 0 + (1 : ℚ) / 2]) ∧
    2 ≤ 2 * 2 ^ 0 + (1 : ℚ) / 2 ∧ 2 * 2 ^ 0 + (1 : ℚ) / 2 < 3 :=
  (C5_retry_with_backoff_spec (fun n => if n = 0 then .error "boom" else .ok 42)
    (fun _ => (1 : ℚ) / 2) (fun _ => by norm_num)).2.1 "boom" 42 rfl rfl

/-! ### Facts about the price pipeline in the extractors -/

theorem sanitize_price_def (s : String) :
    sanitize_price s = (sanitizeParts s).map ratOfParts := rfl

theorem amazon_price_scan_values :
    ∀ (ts : List String) (cur : Option ℚ) (v : ℚ), amazon_price_scan cur ts = some v →
      cur = some v ∨ ∃ t ∈ ts, sanitize_price t = some v := by
  intro ts
  induction ts with
  | nil => intro cur v h; exact Or.inl h
  | cons t ts ih =>
    intro cur v h
    rw [show amazon_price_scan cur (t :: ts)
        = (match sanitize_price t with
           | some u => if 0 < u then some u else amazon_price_scan (some u) ts
           | none => amazon_price_scan none ts) from rfl] at h
    cases hst : sanitize_price t with
    | some u =>
      rw [hst] at h
      simp only [] at h
      by_cases hpos : 0 < u
      · rw [if_pos hpos] at h
        exact Or.inr ⟨t, by simp, by rw [hst, h]⟩
      · rw [if_neg hpos] at h
        rcases ih (some u) v h with hc | ⟨t', ht', hv⟩
        · exact Or.inr ⟨t, by simp, by rw [hst, hc]⟩
        · exact Or.inr ⟨t', by simp [ht'], hv⟩
    | none =>
      rw [hst] at h
      simp only [] at h
      rcases ih none v h with hc | ⟨t', ht', hv⟩
      · exact Option.noConfusion hc
      · exact Or.inr ⟨t', by simp [ht'], hv⟩

theorem amazon_price_scan_all_none :
    ∀ ts : List String, (∀ t ∈ ts, sanitize_price t = none) →
      amazon_price_scan none ts = none := by
  intro ts
  induction ts with
  | nil => intro _; rfl
  | cons t ts ih =>
    intro h
    rw [show amazon_price_scan none (t :: ts)
        = (match sanitize_price t with
           | some u => if 0 < u then some u else amazon_price_scan (some u) ts
           | none => amazon_price_scan none ts) from rfl]
    rw [h t (by simp)]
    exact ih (fun t' ht' => h t' (by simp [ht']))

/-- Where a raw Amazon price value can come from: a parsed selector text, the
parsed whole+fraction fallback, or the parse-zero case that the truthiness
test lets through. -/
theorem amazon_price_raw_cases {c : AmazonCard} {u : ℚ}
    (h : amazon_price_raw c = some u) :
    (∃ t ∈ c.priceTexts, sanitize_price t = some u) ∨
    (∃ wf, c.wholeFrac = some wf ∧ sanitize_price (wf.1 ++ wf.2) = some u) ∨ u = 0 := by
  unfold amazon_price_raw at h
  cases hT : pyTruthy (amazon_price_scan none c.priceTexts) with
  | true =>
    rw [if_pos hT] at h
    rcases amazon_price_scan_values c.priceTexts none u h with hc | hv
    · exact Option.noConfusion hc
    · exact Or.inl hv
  | false =>
    rw [if_neg (by simp [hT])] at h
    cases hwf : c.wholeFrac with
    | some wf =>
      rw [hwf] at h
      simp only [] at h
      exact Or.inr (Or.inl ⟨wf, rfl, h⟩)
    | none =>
      rw [hwf] at h
      simp only [] at h
      rw [h] at hT
      right; right
      by_contra hne
      simp [pyTruthy, hne] at hT

theorem string_append_ne_empty (a b : String) (hb : b ≠ "") : a ++ b ≠ "" := by
  intro hab
  apply hb
  have hd := congrArg String.data hab
  rw [String.data_append] at hd
  have hbd : b.data = [] := (List.append_eq_nil.mp hd).2
  cases b with
  | mk l =>
    simp only [String.data] at hbd
    simp [hbd]

theorem py_url_ne_empty {base : String} {href : Option String} {h : String}
    (hh : href = some h) (hne : h ≠ "") : py_url base href ≠ "" := by
  rw [hh]
  unfold py_url
  simp only []
  by_cases hc : h ≠ "" ∧ headIsSlash h
  · rw [if_pos hc]
    exact string_append_ne_empty base h hne
  · rw [if_neg hc]
    exact hne

/-- C2 counterexample: `"abc"` is a non-empty string that does not parse to a
number, yet the resulting Thomann product price is Python `None` — not the
claimed `0.0` (the `0.0` substitution happens only for an absent or empty
price text, and in the Amazon extractor). -/
theorem C2_price_parse_cex :
    (thomann_extract "https://www.thomann.de"
        ⟨some "X", some "/de/x1.html", some "abc", none, false⟩).map ScrapedProductM.price
      = some none ∧
    sanitize_price "abc" = none ∧
    some (none : Option ℚ) ≠ some (some (0 : ℚ)) := by
  refine ⟨by decide, by decide, by decide⟩

/-- C2 amended: `sanitize_price` maps the three example strings to exactly
1234.56, 49.90 and 29.99; it never raises, returning `None` on an unparseable
string — which the Amazon search extractor converts to a product price of 0.0,
while the Thomann extractor stores the `None` itself whenever the price text
is non-empty; and a string parsing to a negative number yields that negative
value. -/
theorem C2_sanitize_price_amended :
    sanitize_price "€1.234,56" = some (1234.56 : ℚ) ∧
    sanitize_price "49,90 €" = some (49.90 : ℚ) ∧
    sanitize_price "29.99" = some (29.99 : ℚ) ∧
    sanitize_price "-5" = some (-5 : ℚ) ∧
    (∀ s : String, sanitize_price s = none → ∀ base c p, thomann_extract base c = some p →
      c.priceText = some s → s ≠ "" → p.price = none) ∧
    (∀ base c p, amazon_extract base c = some p →
      (∀ t ∈ c.priceTexts, sanitize_price t = none) → c.wholeFrac = none →
      p.price = some 0) := by
  refine ⟨?_, ?_, ?_, ?_, ?_, ?_⟩
  · rw [sanitize_price_def, show sanitizeParts "€1.234,56" = some (123456, 2) from by decide]
    simp [ratOfParts]
    norm_num
  · rw [sanitize_price_def, show sanitizeParts "49,90 €" = some (4990, 2) from by decide]
    simp [ratOfParts]
    norm_num
  · rw [sanitize_price_def, show sanitizeParts "29.99" = some (2999, 2) from by decide]
    simp [ratOfParts]
    norm_num
  · rw [sanitize_price_def, show sanitizeParts "-5" = some (-5, 0) from by decide]
    simp [ratOfParts]
  · intro s hs base c p hp hpt hne
    cases hnm : c.nameText with
    | none => rw [thomann_extract, hnm] at hp; exact Option.noConfusion hp
    | some name =>
      rw [thomann_extract, hnm] at hp
      simp only [] at hp
      by_cases hg : name = "" ∨ stripEnds name.data = []
      · rw [if_pos hg] at hp
        exact Option.noConfusion hp
      · rw [if_neg hg] at hp
        have hrec := Option.some_inj.mp hp
        rw [← hrec]
        show thomann_price c = none
        rw [thomann_price, hpt]
        simp only [if_neg hne]
        exact hs
  · intro base c p hp hnone hwf
    cases hnm : c.nameText with
    | none => rw [amazon_extract, hnm] at hp; exact Option.noConfusion hp
    | some name =>
      rw [amazon_extract, hnm] at hp
      simp only [] at hp
      by_cases hg : name = ""
      · rw [if_pos hg] at hp
        exact Option.noConfusion hp
      · rw [if_neg hg] at hp
        have hrec := Option.some_inj.mp hp
        rw [← hrec]
        show some (pyOr0 (amazon_price_raw c)) = some 0
        have hscan := amazon_price_scan_all_none c.priceTexts hnone
        rw [amazon_price_raw, hscan, hwf]
        rfl

theorem C2_sanitize_price_amended_witness :
    (⟨"N", (none : Option ℚ), "EUR", true, "", none⟩ : ScrapedProductM).price = none :=
  C2_sanitize_price_amended.2.2.2.2.1 "xyz" (by decide) "b"
    ⟨some "N", none, some "xyz", none, false⟩
    ⟨"N", (none : Option ℚ), "EUR", true, "", none⟩ (by decide) rfl (by decide)

/-- C8 counterexample: a card with a title and a positive price but no link
yields `availability = true` together with `url = ""` in both extractors —
the claimed invariant "url is non-empty whenever availability is true" fails
(Amazon's availability looks only at the price, Thomann's only at the
sold-out marker; neither inspects the url). -/
theorem C8_extract_invariant_cex :
    amazon_extract "https://www.amazon.de" ⟨some "X", none, ["10"], none, none⟩
      = some ⟨"X", some (10 : ℚ), "EUR", true, "", none⟩ ∧
    thomann_extract "https://www.thomann.de" ⟨some "Y", none, some "99", none, false⟩
      = some ⟨"Y", some (99 : ℚ), "EUR", true, "", none⟩ := by
  constructor
  · have hs : sanitize_price "10" = some (10 : ℚ) := by
      rw [sanitize_price_def, show sanitizeParts "10" = some (10, 0) from by decide]
      simp [ratOfParts]
    have hscan : amazon_price_scan none ["10"] = some 10 := by
      rw [show amazon_price_scan none ["10"]
          = (match sanitize_price "10" with
             | some u => if 0 < u then some u else amazon_price_scan (some u) []
             | none => amazon_price_scan none []) from rfl, hs]
      simp only []
      rw [if_pos (by norm_num : (0 : ℚ) < 10)]
    have hraw : amazon_price_raw ⟨some "X", none, ["10"], none, none⟩ = some 10 := by
      rw [amazon_price_raw]
      simp only [hscan]
      rw [if_pos (by norm_num [pyTruthy] : pyTruthy (some (10 : ℚ)) = true)]
    have havail : amazon_avail ⟨some "X", none, ["10"], none, none⟩ = true := by
      rw [amazon_avail, hraw]
      simp only []
      norm_num
    rw [amazon_extract]
    simp only []
    rw [if_neg (by decide : ¬("X" = ""))]
    rw [Option.some_inj, ScrapedProductM.mk.injEq]
    refine ⟨by decide, ?_, rfl, havail, rfl, rfl⟩
    rw [hraw]
    show some (pyOr0 (some 10)) = some 10
    rw [pyOr0]
    norm_num
  · have hs : sanitize_price "99" = some (99 : ℚ) := by
      rw [sanitize_price_def, show sanitizeParts "99" = some (99, 0) from by decide]
      simp [ratOfParts]
    rw [thomann_extract]
    simp only []
    rw [if_neg (by decide : ¬("Y" = "" ∨ stripEnds "Y".data = []))]
    rw [Option.some_inj, ScrapedProductM.mk.injEq]
    refine ⟨by decide, ?_, rfl, rfl, rfl, rfl⟩
    rw [thomann_price]
    simp only []
    rw [if_neg (by decide : ¬("99" = ""))]
    exact hs

/-- C8 amended: the data-model invariant holds only under extra conditions
the counterexample forces: every price text the card exposes must parse
non-negative (otherwise the product price can be negative, or `None` in the
Thomann case), and the card must carry a non-empty link (otherwise
`availability` can be true while `url` is empty).  Under those conditions an
extracted Amazon product has a present, non-negative price, a Thomann product
price is non-negative whenever present, and an available product's url is
non-empty. -/
theorem C8_extract_invariant_amended :
    (∀ base c p, amazon_extract base c = some p →
      (∀ t ∈ c.priceTexts, ∀ v : ℚ, sanitize_price t = some v → 0 ≤ v) →
      (∀ w f (v : ℚ), c.wholeFrac = some (w, f) → sanitize_price (w ++ f) = some v → 0 ≤ v) →
      (∃ v, p.price = some v ∧ 0 ≤ v) ∧
      (p.availability = true → ∀ h, c.href = some h → h ≠ "" → p.url ≠ "")) ∧
    (∀ base c p, thomann_extract base c = some p →
      (∀ t, c.priceText = some t → ∀ v : ℚ, sanitize_price t = some v → 0 ≤ v) →
      (∀ v, p.price = some v → 0 ≤ v) ∧
      (p.availability = true → ∀ h, c.href = some h → h ≠ "" → p.url ≠ "")) := by
  constructor
  · intro base c p hp h1 h2
    cases hnm : c.nameText with
    | none => rw [amazon_extract, hnm] at hp; exact Option.noConfusion hp
    | some name =>
      rw [amazon_extract, hnm] at hp
      simp only [] at hp
      by_cases hg : name = ""
      · rw [if_pos hg] at hp
        exact Option.noConfusion hp
      · rw [if_neg hg] at hp
        have hrec := Option.some_inj.mp hp
        constructor
        · refine ⟨pyOr0 (amazon_price_raw c), ?_, ?_⟩
          · rw [← hrec]
          · cases hraw : amazon_price_raw c with
            | none => rw [pyOr0]
            | some u =>
              have hu : 0 ≤ u := by
                rcases amazon_price_raw_cases hraw with ⟨t, ht, hv⟩ | ⟨wf, hwf, hv⟩ | h0
                · exact h1 t ht u hv
                · exact h2 wf.1 wf.2 u (by rw [← hwf]) hv
                · rw [h0]
              rw [pyOr0]
              by_cases h0 : u = 0
              · rw [if_pos h0]
              · rw [if_neg h0]
                exact hu
        · intro _ h hh hne
          rw [← hrec]
          exact py_url_ne_empty hh hne
  · intro base c p hp h1
    cases hnm : c.nameText with
    | none => rw [thomann_extract, hnm] at hp; exact Option.noConfusion hp
    | some name =>
      rw [thomann_extract, hnm] at hp
      simp only [] at hp
      by_cases hg : name = "" ∨ stripEnds name.data = []
      · rw [if_pos hg] at hp
        exact Option.noConfusion hp
      · rw [if_neg hg] at hp
        have hrec := Option.some_inj.mp hp
        constructor
        · intro v hv
          rw [← hrec] at hv
          have hv' : thomann_price c = some v := hv
          rw [thomann_price] at hv'
          cases hpt : c.priceText with
          | none =>
            rw [hpt] at hv'
            simp only [] at hv'
            rw [← Option.some_inj.mp hv']
          | some t =>
            rw [hpt] at hv'
            simp only [] at hv'
            by_cases hte : t = ""
            · rw [if_pos hte] at hv'
              rw [← Option.some_inj.mp hv']
            · rw [if_neg hte] at hv'
              exact h1 t hpt v hv'
        · intro _ h hh hne
          rw [← hrec]
          exact py_url_ne_empty hh hne

theorem C8_extract_invariant_amended_witness :
    ((∃ v, (⟨"N", some (0 : ℚ), "EUR", false, "B/p", none⟩ : ScrapedProductM).price = some v
        ∧ 0 ≤ v) ∧
     ((⟨"N", some (0 : ℚ), "EUR", false, "B/p", none⟩ : ScrapedProductM).availability = true →
        ∀ h, (⟨some "N", some "/p", [], none, none⟩ : AmazonCard).href = some h → h ≠ "" →
        (⟨"N", some (0 : ℚ), "EUR", false, "B/p", none⟩ : ScrapedProductM).url ≠ "")) :=
  C8_extract_invariant_amended.1 "B" ⟨some "N", some "/p", [], none, none⟩
    ⟨"N", some (0 : ℚ), "EUR", false, "B/p", none⟩ (by decide)
    (by intro t ht v hv; exact absurd ht (List.not_mem_nil t))
    (by intro w f v hwf hv; exact Option.noConfusion hwf)

/-- C1: with `force_scrape = False` and a non-empty store list, live scraping
is triggered (the result's `scraping_triggered` list is non-empty) iff the
number of fresh cached products is strictly below
`max_results_per_store * len(stores) / 2` under true division — equivalently
iff twice the fresh count is below `max_results_per_store * len(stores)` —
and when it is triggered, `scraping_triggered` is exactly the requested
store list. -/
theorem C1_scrape_trigger_iff :
    ∀ (ttl : ℚ) (env : SearchEnv) (query : String) (stores : List String) (maxPer : ℕ),
      stores ≠ [] →
      ((intelligent_search ttl env query stores maxPer false).scrapingTriggered ≠ [] ↔
        ((filter_fresh_products ttl
            ((env.dbRows query (maxPer * stores.length)).map db_row_to_record)).length : ℚ)
          < (maxPer : ℚ) * (stores.length : ℚ) / 2) ∧
      (((filter_fresh_products ttl
            ((env.dbRows query (maxPer * stores.length)).map db_row_to_record)).length : ℚ)
          < (maxPer : ℚ) * (stores.length : ℚ) / 2 ↔
        2 * (filter_fresh_products ttl
            ((env.dbRows query (maxPer * stores.length)).map db_row_to_record)).length
          < maxPer * stores.length) ∧
      (2 * (filter_fresh_products ttl
            ((env.dbRows query (maxPer * stores.length)).map db_row_to_record)).length
          < maxPer * stores.length →
        (intelligent_search ttl env query stores maxPer false).scrapingTriggered = stores) := by
  intro ttl env query stores maxPer hne
  set F := (filter_fresh_products ttl
    ((env.dbRows query (maxPer * stores.length)).map db_row_to_record)).length with hF
  have hiff : ((F : ℚ) < (maxPer : ℚ) * (stores.length : ℚ) / 2) ↔
      2 * F < maxPer * stores.length := by
    rw [lt_div_iff₀ (by norm_num : (0 : ℚ) < 2)]
    constructor
    · intro h
      have h2 : ((2 * F : ℕ) : ℚ) < ((maxPer * stores.length : ℕ) : ℚ) := by
        push_cast
        linarith
      exact_mod_cast h2
    · intro h
      have h2 : ((2 * F : ℕ) : ℚ) < ((maxPer * stores.length : ℕ) : ℚ) := by
        exact_mod_cast h
      push_cast at h2
      linarith
  have htrig : (intelligent_search ttl env query stores maxPer false).scrapingTriggered
      = (if decide ((F : ℚ) < (maxPer : ℚ) * (stores.length : ℚ) / 2) then stores
         else []) := by
    simp only [intelligent_search, if_neg hne, needs_scraping, Bool.false_or,
      Bool.false_eq_true, if_false, hF]
  refine ⟨?_, hiff, ?_⟩
  · rw [htrig]
    cases hP : decide ((F : ℚ) < (maxPer : ℚ) * (stores.length : ℚ) / 2) with
    | true =>
      rw [if_pos rfl]
      exact ⟨fun _ => of_decide_eq_true hP, fun _ => hne⟩
    | false =>
      rw [if_neg (by simp)]
      exact ⟨fun h => absurd rfl h, fun hp => absurd hp (of_decide_eq_false hP)⟩
  · intro h2
    rw [htrig, if_pos (by rw [decide_eq_true_eq]; exact hiff.mpr h2)]

theorem C1_scrape_trigger_iff_witness :
    2 * (filter_fresh_products 24
        ((c1env.dbRows "guitar" (5 * (["amazon", "thomann"] : List String).length)).map
          db_row_to_record)).length
      < 5 * (["amazon", "thomann"] : List String).length ∧
    (intelligent_search 24 c1env "guitar" ["amazon", "thomann"] 5 false).scrapingTriggered
      = ["amazon", "thomann"] :=
  ⟨by decide,
   (C1_scrape_trigger_iff 24 c1env "guitar" ["amazon", "thomann"] 5 (by decide)).2.2
     (by decide)⟩

/-- C4 counterexample: with Thomann failing entirely, Amazon's product comes
back untouched — but the returned record has no `storesFailed` key at all
(its keys are exactly `products`/`sources`/`stores_searched`/`total_count`/
`scraping_triggered`), so `storesFailed == ["B"]` is false for every run:
failed stores are only printed, never reported. -/
theorem C4_stores_failed_cex :
    (intelligent_search 24 c4envFail "guitar" ["amazon", "thomann"] 5 true).products
      = [⟨"GuitarA", some (100 : ℚ), none, 0⟩] ∧
    "storesFailed" ∉ intelligent_search_result_keys := by
  refine ⟨by decide, by decide⟩

/-- C4 amended: one store's total failure is isolated — that store contributes
`[]` and every other store's contribution is exactly what it is without the
failure — but no `storesFailed` list exists in the returned record; the
failure is only logged. -/
theorem C4_store_failure_isolated :
    (∀ (env env' : SearchEnv) (q : String) (stores : List String) (s : String),
      env'.scrape s q = .error () →
      (∀ t, t ≠ s → env'.scrape t q = env.scrape t q) →
      scrape_all_stores env' q stores
        = ((stores.filter (fun t => scraperKeys.contains t)).map
            (fun t => if t = s then [] else scrape_store env q t)).flatten) ∧
    "storesFailed" ∉ intelligent_search_result_keys := by
  constructor
  · intro env env' q stores s hfail hagree
    unfold scrape_all_stores
    congr 1
    apply List.map_congr_left
    intro t _
    by_cases hts : t = s
    · subst hts
      rw [if_pos rfl]
      unfold scrape_store
      rw [hfail]
    · rw [if_neg hts]
      unfold scrape_store
      rw [hagree t hts]
  · decide

theorem C4_store_failure_isolated_witness :
    scrape_all_stores c4envFail "guitar" ["amazon", "thomann"]
      = (((["amazon", "thomann"] : List String).filter (fun t => scraperKeys.contains t)).map
          (fun t => if t = "thomann" then [] else scrape_store c4envOk "guitar" t)).flatten :=
  C4_store_failure_isolated.1 c4envOk c4envFail "guitar" ["amazon", "thomann"] "thomann"
    rfl
    (by
      intro t ht
      simp only [c4envFail]
      rw [if_neg ht])

/-- The scrape-decision threshold in integer form: Python's
`fresh < m * s / 2` (true division) is `2 * fresh < m * s`. -/
theorem needs_scraping_eq (f : Bool) (c m s : ℕ) :
    needs_scraping f c m s = (f || decide (2 * c < m * s)) := by
  rw [needs_scraping]
  congr 1
  rw [decide_eq_decide, lt_div_iff₀ (by norm_num : (0 : ℚ) < 2)]
  constructor
  · intro h
    have h2 : ((2 * c : ℕ) : ℚ) < ((m * s : ℕ) : ℚ) := by
      push_cast
      linarith
    exact_mod_cast h2
  · intro h
    have h2 : ((2 * c : ℕ) : ℚ) < ((m * s : ℕ) : ℚ) := by exact_mod_cast h
    push_cast at h2
    linarith

/-- C9 counterexample: called with an empty query *and* an empty store list,
`intelligent_search` neither raises nor returns an error: the empty store
list is falsy, so `stores or list(self.scrapers.keys())` silently replaces it
with both stores, the empty query is looked up and scraped like any other,
and a normal result record comes back. -/
theorem C9_empty_inputs_cex :
    (intelligent_search 24 c9env "" [] 5 false).storesSearched = ["amazon", "thomann"] ∧
    (intelligent_search 24 c9env "" [] 5 false).scrapingTriggered = ["amazon", "thomann"] ∧
    (intelligent_search 24 c9env "" [] 5 false).totalCount = 1 := by
  simp only [intelligent_search, needs_scraping_eq]
  decide

/-- C9 amended: `intelligent_search` has no fatal inputs at all: an empty
store list is silently replaced by the default scraper list, the result
record is always well-formed (`total_count` equals the product count), and
even when every requested store's scrape fails the call still returns the
deduplicated, price-sorted fresh database products — store-level failures
never escalate. -/
theorem C9_no_fatal_empty_inputs :
    (∀ (ttl : ℚ) (env : SearchEnv) (q : String) (m : ℕ) (f : Bool),
      (intelligent_search ttl env q [] m f).storesSearched = scraperKeys) ∧
    (∀ (ttl : ℚ) (env : SearchEnv) (q : String) (stores : List String) (m : ℕ) (f : Bool),
      (intelligent_search ttl env q stores m f).totalCount
        = (intelligent_search ttl env q stores m f).products.length) ∧
    (∀ (ttl : ℚ) (env : SearchEnv) (q : String) (stores : List String) (m : ℕ),
      (∀ s, env.scrape s q = .error ()) →
      (intelligent_search ttl env q stores m false).products
        = sort_by_price (deduplicate_products (filter_fresh_products ttl
            ((env.dbRows q (m * (if stores = [] then scraperKeys else stores).length)).map
              db_row_to_record)))) := by
  refine ⟨?_, ?_, ?_⟩
  · intro ttl env q m f
    simp [intelligent_search]
  · intro ttl env q stores m f
    rfl
  · intro ttl env q stores m hfail
    have hall : ∀ l : List String, scrape_all_stores env q l = [] := by
      intro l
      unfold scrape_all_stores
      have : ∀ x ∈ (l.filter (fun s => scraperKeys.contains s)).map (scrape_store env q),
          x = [] := by
        intro x hx
        obtain ⟨s, _, rfl⟩ := List.mem_map.mp hx
        unfold scrape_store
        rw [hfail s]
      rw [List.flatten_eq_nil_iff.mpr this]
    simp only [intelligent_search, hall, ite_self, Bool.false_eq_true, if_false,
      List.append_nil]

theorem C9_no_fatal_empty_inputs_witness :
    (intelligent_search 24 ⟨fun _ _ => [⟨"g", some ⟨true, false, 1⟩, 0⟩], fun _ _ => .error ()⟩
        "x" ["amazon"] 5 false).products
      = sort_by_price (deduplicate_products (filter_fresh_products 24
          ((SearchEnv.dbRows ⟨fun _ _ => [⟨"g", some ⟨true, false, 1⟩, 0⟩], fun _ _ => .error ()⟩
              "x" (5 * (if (["amazon"] : List String) = [] then scraperKeys
                        else ["amazon"]).length)).map
            db_row_to_record))) :=
  C9_no_fatal_empty_inputs.2.2 24
    ⟨fun _ _ => [⟨"g", some ⟨true, false, 1⟩, 0⟩], fun _ _ => .error ()⟩
    "x" ["amazon"] 5 (fun _ => rfl)

/-- Everything `_scrape_store` emits carries a `"price"` key (the
`float(scraped.price)` conversion must have succeeded for the item to be
kept). -/
theorem scrape_store_price_present (env : SearchEnv) (q s : String) :
    ∀ p ∈ scrape_store env q s, p.price.isSome = true := by
  unfold scrape_store
  cases env.scrape s q with
  | error e => intro p hp; exact absurd hp (List.not_mem_nil p)
  | ok entries =>
    suffices h : ∀ (acc : List Product), (∀ p ∈ acc, p.price.isSome = true) →
        ∀ p ∈ entries.foldl (fun acc e =>
          match e.price with
          | some v => if e.saveOk then acc ++ [⟨e.name, some v, none, e.tag⟩] else acc
          | none => acc) acc, p.price.isSome = true by
      exact h [] (fun p hp => absurd hp (List.not_mem_nil p))
    induction entries with
    | nil => intro acc hacc p hp; exact hacc p hp
    | cons e rest ih =>
      intro acc hacc p hp
      rw [List.foldl_cons] at hp
      refine ih _ ?_ p hp
      cases he : e.price with
      | none => simpa [he] using hacc
      | some v =>
        simp only [he]
        by_cases hs : e.saveOk
        · simp only [if_pos hs]
          intro r hr
          rcases List.mem_append.mp hr with hr | hr
          · exact hacc r hr
          · simp only [List.mem_singleton] at hr
            subst hr
            rfl
        · simpa [if_neg hs] using hacc

/-- C10: the database path carries a `"prices"` array but no top-level
`"price"` key, so a database-sourced record is treated as having price +∞:
the result list of every `intelligent_search` call is ordered so that a
price-less record never precedes a priced one (db-sourced records sort after
all scraped ones), and whenever a record's normalized name is shared by any
entry of the merged list that does carry a price — every freshly scraped
record does — the entry the deduplicator keeps for that name carries a price
(the finite price always beats the missing one). -/
theorem C10_db_records_sort_last :
    (∀ b, "price" ∉ db_record_keys b) ∧
    (∀ r : DBRow, pyPriceVal (db_row_to_record r).price = ⊤) ∧
    (∀ env q s p, p ∈ scrape_store env q s → p.price.isSome = true) ∧
    (∀ (ttl : ℚ) (env : SearchEnv) (q : String) (stores : List String) (m : ℕ) (f : Bool),
      ((intelligent_search ttl env q stores m f).products).Pairwise
        (fun a b => a.price = none → b.price = none)) ∧
    (∀ (l : List Product) (p : Product), p ∈ deduplicate_products l →
      ∀ q ∈ l, prodKey q = prodKey p → q.price.isSome = true → p.price.isSome = true) := by
  refine ⟨by decide, fun r => rfl, scrape_store_price_present, ?_, ?_⟩
  · intro ttl env q stores m f
    have himp : ∀ {a b : Product}, priceLE a b → (a.price = none → b.price = none) := by
      intro a b hle ha
      rw [priceLE, ha] at hle
      rw [show pyPriceVal none = ⊤ from rfl] at hle
      have hb := top_le_iff.mp hle
      cases hbp : b.price with
      | none => rfl
      | some v =>
        rw [hbp] at hb
        exact absurd hb (WithTop.coe_ne_top)
    exact List.Pairwise.imp himp
      (List.sorted_insertionSort priceLE
        (deduplicate_products _))
  · intro l p hp q hq hk hqs
    obtain ⟨pre, post, hsplit, hpre, hpost⟩ := dedup_member_split hp
    have hqfil : q ∈ l.filter (fun r => prodKey r == prodKey p) := by
      rw [List.mem_filter]
      exact ⟨hq, by simp [hk]⟩
    rw [hsplit] at hqfil
    obtain ⟨v, hv⟩ := Option.isSome_iff_exists.mp hqs
    by_contra hps
    have hpnone : p.price = none := by
      cases hpp : p.price with
      | none => rfl
      | some u => rw [hpp] at hps; exact absurd rfl hps
    rcases List.mem_append.mp hqfil with hqpre | hqpost
    · have := hpre q hqpre
      rw [priceLT_iff, hpnone, hv] at this
      rw [show pyPriceVal none = ⊤ from rfl] at this
      exact absurd this (not_top_lt)
    · rcases List.mem_cons.mp hqpost with rfl | hqpost'
      · rw [hpnone] at hv
        exact Option.noConfusion hv
      · have := hpost q hqpost'
        rw [priceLT_false_iff, hpnone, hv] at this
        rw [show pyPriceVal none = ⊤ from rfl] at this
        exact this (WithTop.coe_lt_top v)

theorem C10_db_records_sort_last_witness :
    (⟨"strat-a", some (10 : ℚ), none, 1⟩ : Product).price.isSome = true :=
  C10_db_records_sort_last.2.2.2.2
    [⟨"Strat A", none, none, 0⟩, ⟨"strat-a", some (10 : ℚ), none, 1⟩]
    ⟨"strat-a", some (10 : ℚ), none, 1⟩ (by decide)
    ⟨"strat-a", some (10 : ℚ), none, 1⟩ (by decide) (by decide) (by decide)

